import Mathlib

/-!
# Verification of the portfolio position-accounting core

Shallow embedding of the computation core of a portfolio tracker:

* `calculateClosedPositions` and its FIFO sell loop, from
  `src/components/HistoryList.tsx` (the matching engine and the
  distribution attributor);
* the per-stock portfolio fold, `calculateReturn`,
  `calculateMonthlyReturn`, `totalCurrentValue` and
  `totalPortfolioInvested`, from the `PortfolioSummary` component.

Modelling conventions:

* JavaScript numbers are modelled as exact rationals (`ℚ`); float
  rounding is not modelled.
* Timestamps (`Date.getTime()`) are modelled as integers (`ℤ`,
  milliseconds).
* JavaScript division by zero produces a non-finite value
  (`NaN`/`±Infinity`).  Where a claim depends on that case
  (`calculateReturn`), the function returns `Option ℚ` and `none` marks
  a non-finite result.  Elsewhere (`returnPercent` of a closed position,
  `avgPrice` on a zero total quantity) the rational convention
  `x / 0 = 0` is used; no theorem below depends on those branches.
* JavaScript objects used as string-keyed maps are modelled either as
  total functions with an explicit default (the FIFO queues, where the
  source initialises a missing key to `[]` before use) or as association
  lists in insertion order (the portfolio map, whose `Object.entries`
  enumeration order matters).
* `Array.prototype.sort` is stable; it is modelled by
  `List.insertionSort`, which is stable.
-/

/-- `transaction_type` of a transaction: `"buy" | "sell"`. -/
inductive TxType where
  | buy
  | sell
deriving DecidableEq

/-- A `Transaction` record as consumed by the components
(`HistoryList.tsx`, `PortfolioSummary`). -/
structure Transaction where
  stock_code : String
  transaction_type : TxType
  quantity : ℚ
  price_per_share : ℚ
  total_value : ℚ
  transaction_date : ℤ
deriving DecidableEq

/-- A `Dividend` record. -/
structure Dividend where
  stock_code : String
  amount : ℚ
  dividend_date : ℤ
deriving DecidableEq

/-- An entry of a FIFO stock queue, as pushed on a buy in
`calculateClosedPositions`:
`{ quantity, price, date, totalValue }`. -/
structure Buy where
  quantity : ℚ
  price : ℚ
  date : ℤ
  totalValue : ℚ
deriving DecidableEq

/-- A `ClosedPosition` record (`HistoryList.tsx`). -/
structure ClosedPosition where
  stock_code : String
  buyDate : ℤ
  sellDate : ℤ
  quantity : ℚ
  buyPrice : ℚ
  sellPrice : ℚ
  buyValue : ℚ
  sellValue : ℚ
  dividends : ℚ
  days : ℤ
  returnReais : ℚ
  returnPercent : ℚ
  monthlyReturn : ℚ
deriving DecidableEq

/-- Milliseconds in a day, the divisor `1000 * 60 * 60 * 24` used by both
components when turning a timestamp difference into days. -/
def msPerDay : ℚ := 1000 * 60 * 60 * 24

/-- `Math.ceil(diff / (1000 * 60 * 60 * 24))` for a timestamp difference
`diff` in milliseconds. -/
def jsCeilDays (diff : ℤ) : ℤ := ⌈((diff : ℚ)) / msPerDay⌉

/-- `jsCeilDays` as an integer division, for computation. -/
theorem jsCeilDays_eq (d : ℤ) : jsCeilDays d = -(-d / 86400000) := by
  have h : ((d : ℚ)) / msPerDay = -((((-d : ℤ) : ℚ)) / ((86400000 : ℕ) : ℚ)) := by
    push_cast
    rw [msPerDay]
    ring
  rw [jsCeilDays, h, Int.ceil_neg, Rat.floor_intCast_div_natCast]
  norm_num

/-- The dividend filter-and-reduce performed per matched lot in
`calculateClosedPositions` (`HistoryList.tsx` lines 87–93): the sum of the
amounts of every dividend of the same stock whose date lies in the
inclusive window `[buyDate, sellDate]`. -/
def dividendsInWindow (divs : List Dividend) (stock : String)
    (buyDate sellDate : ℤ) : ℚ :=
  ((divs.filter (fun d =>
      decide (d.stock_code = stock ∧ buyDate ≤ d.dividend_date ∧
        d.dividend_date ≤ sellDate))).map (·.amount)).sum

/-- One `ClosedPosition` as constructed in the body of the FIFO matching
loop (`HistoryList.tsx` lines 85–117), for a matched quantity `matched`
taken from the head lot `oldest`. -/
def mkClosedPosition (divs : List Dividend) (stock : String)
    (sellDate : ℤ) (sellPrice : ℚ) (oldest : Buy) (matched : ℚ) :
    ClosedPosition :=
  let buyDate := oldest.date
  let positionDividends := dividendsInWindow divs stock buyDate sellDate
  let buyValue := matched * oldest.price
  let sellValue := matched * sellPrice
  let days : ℤ := jsCeilDays (sellDate - buyDate)
  let returnReais := (sellValue + positionDividends) - buyValue
  let returnPercent := (returnReais / buyValue) * 100
  let months := (days : ℚ) / 30
  let monthlyReturn := if months > 0 then returnPercent / months else 0
  { stock_code := stock
    buyDate := buyDate
    sellDate := sellDate
    quantity := matched
    buyPrice := oldest.price
    sellPrice := sellPrice
    buyValue := buyValue
    sellValue := sellValue
    dividends := positionDividends
    days := days
    returnReais := returnReais
    returnPercent := returnPercent
    monthlyReturn := monthlyReturn }

/-- The FIFO matching loop of `calculateClosedPositions`
(`HistoryList.tsx` lines 81–124):
`while (remainingSell > 0 && stockQueues[stock].length > 0)`.

Each pass matches `min remainingSell oldest.quantity` against the head
lot, emits one `ClosedPosition`, and then either removes the drained head
(`oldestBuy.quantity === 0` after the decrement) and continues with the
reduced request, or leaves the partially drained head in place.  In the
partial-drain branch `matched = remainingSell` (the head had more than
requested), so in the source the loop condition `remainingSell > 0` fails
on the next pass; the embedding returns directly there, which is the same
behaviour. -/
def sellLoop (divs : List Dividend) (stock : String) (sellDate : ℤ)
    (sellPrice : ℚ) : ℚ → List Buy → List Buy × List ClosedPosition
  | _, [] => ([], [])
  | remainingSell, oldest :: rest =>
    if 0 < remainingSell then
      let matched := min remainingSell oldest.quantity
      let cp := mkClosedPosition divs stock sellDate sellPrice oldest matched
      if oldest.quantity - matched = 0 then
        let res := sellLoop divs stock sellDate sellPrice
          (remainingSell - matched) rest
        (res.1, cp :: res.2)
      else
        ({ oldest with quantity := oldest.quantity - matched } :: rest, [cp])
    else (oldest :: rest, [])

/-- Pointwise update of the string-keyed queue map `stockQueues`. -/
def updateQ (st : String → List Buy) (code : String) (q : List Buy) :
    String → List Buy :=
  fun s => if s = code then q else st s

/-- Processing of one sorted transaction in `calculateClosedPositions`
(`HistoryList.tsx` lines 61–126): a buy appends a lot to the tail of its
stock's queue; a sell runs the FIFO loop on that queue and appends the
emitted closed positions.  A missing key is initialised to `[]` in the
source, which the total map with default `[]` models. -/
def step (divs : List Dividend)
    (acc : (String → List Buy) × List ClosedPosition) (t : Transaction) :
    (String → List Buy) × List ClosedPosition :=
  let stock := t.stock_code
  match t.transaction_type with
  | .buy =>
      (updateQ acc.1 stock (acc.1 stock ++
        [{ quantity := t.quantity
           price := t.price_per_share
           date := t.transaction_date
           totalValue := t.total_value }]), acc.2)
  | .sell =>
      let res := sellLoop divs stock t.transaction_date t.price_per_share
        t.quantity (acc.1 stock)
      (updateQ acc.1 stock res.1, acc.2 ++ res.2)

/-- Initial state of a run: empty queues, no closed positions. -/
def initState : (String → List Buy) × List ClosedPosition :=
  (fun _ => [], [])

/-- `[...transactions].sort((a, b) => dateA - dateB)`: stable sort of the
transactions by date ascending (`HistoryList.tsx` lines 57–59). -/
def sortedTransactions (ts : List Transaction) : List Transaction :=
  List.insertionSort (fun a b => a.transaction_date ≤ b.transaction_date) ts

/-- State (queues and accumulated closed positions) after processing the
first `n` sorted transactions — the mid-run state of
`calculateClosedPositions`. -/
def runPrefix (ts : List Transaction) (divs : List Dividend) (n : ℕ) :
    (String → List Buy) × List ClosedPosition :=
  ((sortedTransactions ts).take n).foldl (step divs) initState

/-- The stock queues left when `calculateClosedPositions` finishes. -/
def finalStockQueues (ts : List Transaction) (divs : List Dividend) :
    String → List Buy :=
  ((sortedTransactions ts).foldl (step divs) initState).1

/-- `calculateClosedPositions` (`HistoryList.tsx` lines 52–129): sort the
transactions by date, run the FIFO matching fold, and return the closed
positions sorted most-recent-sale-first
(`closedPositions.sort((a, b) => b.sellDate - a.sellDate)`, a stable
sort). -/
def calculateClosedPositions (ts : List Transaction)
    (divs : List Dividend) : List ClosedPosition :=
  List.insertionSort (fun a b => b.sellDate ≤ a.sellDate)
    ((sortedTransactions ts).foldl (step divs) initState).2


/-! ## The `PortfolioSummary` component -/

/-- One value of the `portfolio` object built per stock in
`PortfolioSummary` (lines 43–64):
`{ quantity, avgPrice, totalInvested, firstPurchaseDate, totalDividends }`. -/
structure PortfolioEntry where
  quantity : ℚ
  avgPrice : ℚ
  totalInvested : ℚ
  firstPurchaseDate : Option ℤ
  totalDividends : ℚ
deriving DecidableEq

/-- The fresh entry installed for a stock's first transaction:
`{ quantity: 0, avgPrice: 0, totalInvested: 0, firstPurchaseDate: null,
totalDividends: 0 }`. -/
def emptyEntry : PortfolioEntry :=
  { quantity := 0
    avgPrice := 0
    totalInvested := 0
    firstPurchaseDate := none
    totalDividends := 0 }

/-- The `portfolio` object, modelled as an association list in key
insertion order (JavaScript objects enumerate string keys in insertion
order, which `Object.entries` relies on). -/
def Portfolio : Type := List (String × PortfolioEntry)

/-- Lookup of `portfolio[code]`. -/
def lookupEntry (pf : Portfolio) (code : String) : Option PortfolioEntry :=
  (pf.find? (fun p => decide (p.1 = code))).map (·.2)

/-- Assignment `portfolio[code] = e`: replaces the entry in place when the
key exists, appends it otherwise. -/
def setEntry : Portfolio → String → PortfolioEntry → Portfolio
  | [], code, e => [(code, e)]
  | (c, e0) :: rest, code, e =>
      if c = code then (c, e) :: rest else (c, e0) :: setEntry rest code e

/-- Processing of one transaction by the `transactions.forEach` of
`PortfolioSummary` (lines 45–64).  A buy folds the transaction's
`total_value` into the running average
(`avgPrice = (quantity * avgPrice + total_value) / (quantity + t.quantity)`),
adds to `totalInvested` and keeps the earliest purchase date; a sell only
decrements `quantity`.  The transactions are processed in the given order
(this component does not sort). -/
def portfolioStep (pf : Portfolio) (t : Transaction) : Portfolio :=
  let e := (lookupEntry pf t.stock_code).getD emptyEntry
  match t.transaction_type with
  | .buy =>
      let currentTotal := e.quantity * e.avgPrice
      let newTotal := currentTotal + t.total_value
      let newQuantity := e.quantity + t.quantity
      let newFirst :=
        match e.firstPurchaseDate with
        | none => some t.transaction_date
        | some d =>
            if t.transaction_date < d then some t.transaction_date else some d
      setEntry pf t.stock_code
        { e with
          quantity := newQuantity
          avgPrice := newTotal / newQuantity
          totalInvested := e.totalInvested + t.total_value
          firstPurchaseDate := newFirst }
  | .sell =>
      setEntry pf t.stock_code { e with quantity := e.quantity - t.quantity }

/-- The `dividends.forEach` of `PortfolioSummary` (lines 67–71): adds each
dividend's amount to `totalDividends` of its stock's entry, but only when
the stock already has an entry (`if (portfolio[d.stock_code])`). -/
def addDividends (pf : Portfolio) (divs : List Dividend) : Portfolio :=
  divs.foldl
    (fun pf d =>
      match lookupEntry pf d.stock_code with
      | none => pf
      | some e =>
          setEntry pf d.stock_code
            { e with totalDividends := e.totalDividends + d.amount })
    pf

/-- The complete `portfolio` object of `PortfolioSummary`. -/
def buildPortfolio (ts : List Transaction) (divs : List Dividend) :
    Portfolio :=
  addDividends (ts.foldl portfolioStep []) divs

/-- `activeStocks`: the entries with `quantity > 0`, in enumeration
order. -/
def activeStocks (pf : Portfolio) : Portfolio :=
  pf.filter (fun p => decide (0 < p.2.quantity))

/-- The per-stock price state fetched from the quote API:
`{ currentPrice, loading }`. -/
structure StockData where
  currentPrice : ℚ
  loading : Bool
deriving DecidableEq

/-- `calculateCurrentValue` (`PortfolioSummary` lines 131–133). -/
def calculateCurrentValue (quantity currentPrice : ℚ) : ℚ :=
  quantity * currentPrice

/-- `calculateReturn` (`PortfolioSummary` lines 124–129).  The result is
`Option ℚ`: `none` stands for the non-finite value (`NaN` or
`±Infinity`) the JavaScript division produces when `totalInvested` is
zero; every other outcome is finite and exact. -/
def calculateReturn (avgPrice currentPrice dividends quantity : ℚ) :
    Option ℚ :=
  if currentPrice = 0 then some 0
  else
    let totalInvested := avgPrice * quantity
    let currentValue := currentPrice * quantity
    if totalInvested = 0 then none
    else some (((currentValue + dividends - totalInvested) / totalInvested) * 100)

/-- `calculateMonthlyReturn` (`PortfolioSummary` lines 135–145), with the
evaluation clock `now` passed explicitly (the source reads
`new Date()`). -/
def calculateMonthlyReturn (now : ℤ) (firstPurchaseDate : Option ℤ)
    (currentReturn : ℚ) : ℚ :=
  match firstPurchaseDate with
  | none => 0
  | some first =>
      let diffDays := jsCeilDays |now - first|
      let diffMonths := (diffDays : ℚ) / 30
      if diffMonths = 0 then 0 else currentReturn / diffMonths

/-- `totalCurrentValue` (`PortfolioSummary` lines 154–158): the reduce
over `activeStocks` that skips a stock whose price is missing or still
loading, and otherwise adds current value plus that stock's dividends. -/
def totalCurrentValue (active : Portfolio)
    (stockPrices : String → Option StockData) : ℚ :=
  active.foldl
    (fun sum p =>
      match stockPrices p.1 with
      | none => sum
      | some sd =>
          if sd.loading then sum
          else sum + calculateCurrentValue p.2.quantity sd.currentPrice +
            p.2.totalDividends)
    0

/-- `totalPortfolioInvested` (`PortfolioSummary` lines 160–162): the
reduce over `activeStocks` that adds every entry's `totalInvested`,
with no condition on the price state. -/
def totalPortfolioInvested (active : Portfolio) : ℚ :=
  active.foldl (fun sum p => sum + p.2.totalInvested) 0

/-! ## Quantity accounting -/

/-- Total `quantity` held in a list of open lots. -/
def queueQty (l : List Buy) : ℚ := (l.map (·.quantity)).sum

/-- Total matched `quantity` over a list of closed positions. -/
def cpQtySum (cps : List ClosedPosition) : ℚ := (cps.map (·.quantity)).sum

/-- Total closed `quantity` for one stock. -/
def closedQty (s : String) (cps : List ClosedPosition) : ℚ :=
  ((cps.filter (fun c => decide (c.stock_code = s))).map (·.quantity)).sum

/-- Total quantity acquired (bought) for one stock in a transaction
list. -/
def acquiredQty (s : String) (ts : List Transaction) : ℚ :=
  ((ts.filter (fun t =>
    decide (t.stock_code = s ∧ t.transaction_type = .buy))).map
      (·.quantity)).sum

theorem closedQty_append (s : String) (l₁ l₂ : List ClosedPosition) :
    closedQty s (l₁ ++ l₂) = closedQty s l₁ + closedQty s l₂ := by
  simp [closedQty, List.filter_append]

theorem acquiredQty_cons (s : String) (t : Transaction)
    (ts : List Transaction) :
    acquiredQty s (t :: ts) =
      (if t.stock_code = s ∧ t.transaction_type = .buy then t.quantity
        else 0) + acquiredQty s ts := by
  by_cases h : t.stock_code = s ∧ t.transaction_type = .buy <;>
    simp [acquiredQty, List.filter_cons, h]

/-- Every pass of the FIFO loop moves quantity from the queue into the
emitted closed position: the queue total plus the emitted total equals
the original queue total. -/
theorem sellLoop_conservation (dv : List Dividend) (st : String)
    (sd : ℤ) (sp : ℚ) :
    ∀ (q : List Buy) (r : ℚ),
      queueQty (sellLoop dv st sd sp r q).1 +
        cpQtySum (sellLoop dv st sd sp r q).2 = queueQty q := by
  intro q
  induction q with
  | nil => intro r; simp [sellLoop, queueQty, cpQtySum]
  | cons oldest rest ih =>
      intro r
      by_cases hr : 0 < r
      · by_cases hdrain : oldest.quantity - min r oldest.quantity = 0
        · have hmin : min r oldest.quantity = oldest.quantity :=
            (sub_eq_zero.mp hdrain).symm
          simp only [sellLoop, if_pos hr, if_pos hdrain]
          simp only [hmin]
          have h2 := ih (r - oldest.quantity)
          simp only [queueQty, cpQtySum, mkClosedPosition, List.map_cons,
            List.sum_cons] at h2 ⊢
          linarith
        · simp only [sellLoop, if_pos hr, if_neg hdrain]
          simp [queueQty, cpQtySum, mkClosedPosition]
          ring
      · simp [sellLoop, if_neg hr, cpQtySum]

/-- Every closed position emitted by one FIFO pass carries the stock,
sell date and sell price of the disposal, its dividend window sum, and
the return fields computed from its own stored fields. -/
theorem mem_sellLoop (dv : List Dividend) (st : String) (sd : ℤ)
    (sp : ℚ) :
    ∀ (q : List Buy) (r : ℚ) (cp : ClosedPosition),
      cp ∈ (sellLoop dv st sd sp r q).2 →
      cp.stock_code = st ∧ cp.sellDate = sd ∧ cp.sellPrice = sp ∧
      cp.dividends = dividendsInWindow dv cp.stock_code cp.buyDate cp.sellDate ∧
      cp.days = jsCeilDays (cp.sellDate - cp.buyDate) ∧
      cp.buyValue = cp.quantity * cp.buyPrice ∧
      cp.sellValue = cp.quantity * cp.sellPrice ∧
      cp.returnReais = (cp.sellValue + cp.dividends) - cp.buyValue ∧
      cp.returnPercent = (cp.returnReais / cp.buyValue) * 100 ∧
      cp.monthlyReturn =
        (if 0 < (cp.days : ℚ) / 30 then
          cp.returnPercent / ((cp.days : ℚ) / 30) else 0) := by
  intro q
  induction q with
  | nil => intro r cp h; simp [sellLoop] at h
  | cons oldest rest ih =>
      intro r cp h
      by_cases hr : 0 < r
      · by_cases hdrain : oldest.quantity - min r oldest.quantity = 0
        · simp only [sellLoop, if_pos hr, if_pos hdrain, List.mem_cons] at h
          rcases h with h | h
          · subst h
            simp [mkClosedPosition]
          · exact ih _ cp h
        · simp only [sellLoop, if_pos hr, if_neg hdrain,
            List.mem_singleton] at h
          subst h
          simp [mkClosedPosition]
      · simp [sellLoop, if_neg hr] at h

theorem closedQty_cons (s : String) (cp : ClosedPosition)
    (rest : List ClosedPosition) :
    closedQty s (cp :: rest) =
      (if cp.stock_code = s then cp.quantity else 0) + closedQty s rest := by
  by_cases h : cp.stock_code = s <;> simp [closedQty, List.filter_cons, h]

theorem closedQty_of_all_stock (st s : String) (l : List ClosedPosition)
    (h : ∀ cp ∈ l, cp.stock_code = st) :
    closedQty s l = if st = s then cpQtySum l else 0 := by
  induction l with
  | nil => simp [closedQty, cpQtySum]
  | cons cp rest ih =>
      have hcp : cp.stock_code = st := h cp (List.mem_cons_self cp rest)
      have hrest := ih (fun c hc => h c (List.mem_cons_of_mem cp hc))
      rw [closedQty_cons, hrest, hcp]
      by_cases hs : st = s <;> simp [cpQtySum, hs]

/-- Effect of one processed transaction on one stock's open and closed
quantities: a buy adds its quantity to its own stock's queue, a sell
moves queue quantity into closed positions of the same stock; every
other stock is untouched. -/
theorem step_conservation (dv : List Dividend) (s : String)
    (acc : (String → List Buy) × List ClosedPosition) (t : Transaction) :
    queueQty ((step dv acc t).1 s) + closedQty s (step dv acc t).2
      = queueQty (acc.1 s) + closedQty s acc.2 +
        (if t.stock_code = s ∧ t.transaction_type = .buy then t.quantity
          else 0) := by
  cases htype : t.transaction_type with
  | buy =>
      by_cases hs : s = t.stock_code
      · subst hs
        simp [step, htype, updateQ, queueQty]
        ring
      · have hs' : ¬t.stock_code = s := fun h => hs h.symm
        simp [step, htype, updateQ, hs, hs']
  | sell =>
      have hcons := sellLoop_conservation dv t.stock_code t.transaction_date
        t.price_per_share (acc.1 t.stock_code) t.quantity
      have hall : ∀ cp ∈ (sellLoop dv t.stock_code t.transaction_date
          t.price_per_share t.quantity (acc.1 t.stock_code)).2,
          cp.stock_code = t.stock_code := fun cp h =>
        (mem_sellLoop dv t.stock_code t.transaction_date t.price_per_share
          (acc.1 t.stock_code) t.quantity cp h).1
      have hclosed := closedQty_of_all_stock t.stock_code s _ hall
      by_cases hs : s = t.stock_code
      · subst hs
        simp only [step, htype, updateQ, if_pos rfl, closedQty_append,
          hclosed, if_pos rfl]
        simp
        linarith
      · have hs' : ¬t.stock_code = s := fun h => hs h.symm
        simp only [step, htype, updateQ, closedQty_append, hclosed,
          if_neg hs, if_neg hs']
        simp [htype]

/-- Conservation over a whole fold: processing any transaction list adds
exactly the acquired quantities to the combined open-plus-closed total of
each stock. -/
theorem run_conservation (dv : List Dividend) (s : String) :
    ∀ (ts : List Transaction)
      (acc : (String → List Buy) × List ClosedPosition),
      queueQty ((ts.foldl (step dv) acc).1 s) +
          closedQty s (ts.foldl (step dv) acc).2
        = queueQty (acc.1 s) + closedQty s acc.2 + acquiredQty s ts := by
  intro ts
  induction ts with
  | nil => intro acc; simp [acquiredQty]
  | cons t ts ih =>
      intro acc
      rw [List.foldl_cons, ih (step dv acc t), acquiredQty_cons]
      have := step_conservation dv s acc t
      linarith

theorem closedQty_perm (s : String) {l₁ l₂ : List ClosedPosition}
    (h : l₁.Perm l₂) : closedQty s l₁ = closedQty s l₂ :=
  List.Perm.sum_eq (List.Perm.map _ (List.Perm.filter _ h))

theorem acquiredQty_perm (s : String) {l₁ l₂ : List Transaction}
    (h : l₁.Perm l₂) : acquiredQty s l₁ = acquiredQty s l₂ :=
  List.Perm.sum_eq (List.Perm.map _ (List.Perm.filter _ h))

/-- Field consistency of a closed position produced by the matching
loop: values and returns are computed from the stored quantity, prices,
dividend window and day count. -/
def cpFieldsConsistent (dv : List Dividend) (cp : ClosedPosition) : Prop :=
  cp.dividends = dividendsInWindow dv cp.stock_code cp.buyDate cp.sellDate ∧
  cp.days = jsCeilDays (cp.sellDate - cp.buyDate) ∧
  cp.buyValue = cp.quantity * cp.buyPrice ∧
  cp.sellValue = cp.quantity * cp.sellPrice ∧
  cp.returnReais = (cp.sellValue + cp.dividends) - cp.buyValue ∧
  cp.returnPercent = (cp.returnReais / cp.buyValue) * 100 ∧
  cp.monthlyReturn =
    (if 0 < (cp.days : ℚ) / 30 then cp.returnPercent / ((cp.days : ℚ) / 30)
      else 0)

theorem mem_run_fields (dv : List Dividend) :
    ∀ (ts : List Transaction)
      (acc : (String → List Buy) × List ClosedPosition),
      (∀ c ∈ acc.2, cpFieldsConsistent dv c) →
      ∀ cp ∈ (ts.foldl (step dv) acc).2, cpFieldsConsistent dv cp := by
  intro ts
  induction ts with
  | nil => intro acc hacc cp hcp; exact hacc cp hcp
  | cons t ts ih =>
      intro acc hacc cp hcp
      rw [List.foldl_cons] at hcp
      refine ih (step dv acc t) ?_ cp hcp
      intro c hc
      cases htype : t.transaction_type with
      | buy =>
          simp only [step, htype] at hc
          exact hacc c hc
      | sell =>
          simp only [step, htype] at hc
          rcases List.mem_append.mp hc with h | h
          · exact hacc c h
          · have := mem_sellLoop dv t.stock_code t.transaction_date
              t.price_per_share (acc.1 t.stock_code) t.quantity c h
            exact ⟨this.2.2.2.1, this.2.2.2.2.1, this.2.2.2.2.2.1,
              this.2.2.2.2.2.2.1, this.2.2.2.2.2.2.2.1,
              this.2.2.2.2.2.2.2.2.1, this.2.2.2.2.2.2.2.2.2⟩

/-- Every closed position in the final (sorted) output of
`calculateClosedPositions` has consistent fields. -/
theorem mem_calculateClosedPositions_fields (ts : List Transaction)
    (dv : List Dividend) (cp : ClosedPosition)
    (h : cp ∈ calculateClosedPositions ts dv) : cpFieldsConsistent dv cp := by
  rw [calculateClosedPositions, List.mem_insertionSort] at h
  exact mem_run_fields dv (sortedTransactions ts) initState
    (by intro c hc; simp [initState] at hc) cp h

/-! ## Portfolio helper lemmas -/

theorem lookupEntry_setEntry_self (pf : Portfolio) (c : String)
    (e : PortfolioEntry) : lookupEntry (setEntry pf c e) c = some e := by
  induction pf with
  | nil => simp [setEntry, lookupEntry, List.find?]
  | cons p rest ih =>
      by_cases h : p.1 = c
      · simp [setEntry, h, lookupEntry, List.find?]
      · simp only [setEntry]
        rw [if_neg ?_]
        · simp only [lookupEntry, List.find?] at ih ⊢
          simp [h, ih]
        · exact h

/-- A queue of positive lots holds a non-negative total quantity. -/
theorem queueQty_nonneg (q : List Buy) (h : ∀ b ∈ q, 0 < b.quantity) :
    0 ≤ queueQty q := by
  refine List.sum_nonneg ?_
  intro x hx
  rcases List.mem_map.mp hx with ⟨b, hb, rfl⟩
  exact le_of_lt (h b hb)

/-- A sell request that is not positive leaves the queue untouched and
emits nothing: the loop guard `remainingSell > 0` fails on entry. -/
theorem sellLoop_nonpos (dv : List Dividend) (st : String) (sd : ℤ)
    (sp : ℚ) (q : List Buy) (r : ℚ) (hr : ¬0 < r) :
    sellLoop dv st sd sp r q = (q, []) := by
  cases q <;> simp [sellLoop, hr]

/-- The contribution one active stock makes to `totalCurrentValue`:
zero when its price is missing or loading, current value plus its
dividends otherwise. -/
def priceContribution (stockPrices : String → Option StockData)
    (p : String × PortfolioEntry) : ℚ :=
  match stockPrices p.1 with
  | none => 0
  | some sd =>
      if sd.loading then 0
      else calculateCurrentValue p.2.quantity sd.currentPrice +
        p.2.totalDividends

theorem totalCurrentValue_eq_sum (active : Portfolio)
    (prices : String → Option StockData) :
    totalCurrentValue active prices =
      (active.map (priceContribution prices)).sum := by
  have hstep : ∀ (sum : ℚ) (p : String × PortfolioEntry),
      (match prices p.1 with
        | none => sum
        | some sd =>
            if sd.loading then sum
            else sum + calculateCurrentValue p.2.quantity sd.currentPrice +
              p.2.totalDividends) = sum + priceContribution prices p := by
    intro sum p
    rcases hp : prices p.1 with _ | sd
    · simp [priceContribution, hp]
    · rcases hl : sd.loading
      · simp [priceContribution, hp, hl]
        ring
      · simp [priceContribution, hp, hl]
  have haux : ∀ (l : Portfolio) (a : ℚ),
      l.foldl
        (fun sum p =>
          match prices p.1 with
          | none => sum
          | some sd =>
              if sd.loading then sum
              else sum + calculateCurrentValue p.2.quantity sd.currentPrice +
                p.2.totalDividends)
        a = a + (l.map (priceContribution prices)).sum := by
    intro l
    induction l with
    | nil => intro a; simp
    | cons p rest ih =>
        intro a
        rw [List.foldl_cons, hstep a p, ih]
        simp
        ring
  simpa [totalCurrentValue] using haux active 0

theorem totalPortfolioInvested_eq_sum (active : Portfolio) :
    totalPortfolioInvested active =
      (active.map (fun p => p.2.totalInvested)).sum := by
  have haux : ∀ (l : Portfolio) (a : ℚ),
      l.foldl (fun sum p => sum + p.2.totalInvested) a =
        a + (l.map (fun p => p.2.totalInvested)).sum := by
    intro l
    induction l with
    | nil => intro a; simp
    | cons p rest ih =>
        intro a
        rw [List.foldl_cons, ih]
        simp
        ring
  simpa [totalPortfolioInvested] using haux active 0

/-- The weighted-average cost recomputed from the open lots, following
the specification's formula: `Σ(remaining × unit_cost) / Σ(remaining)`,
`0` when no quantity remains open.  This is the specification-side
definition that is compared against the code's `avgPrice`. -/
def specWeightedAverageCost (lots : List Buy) : ℚ :=
  if queueQty lots = 0 then 0
  else ((lots.map (fun b => b.quantity * b.price)).sum) / queueQty lots

/-! ## Claims -/

/-- C3: disposals consume open lots strictly oldest-first with partial
drain of the last touched lot: Acquire(qty=10, price=1, t=1),
Acquire(qty=10, price=2, t=2), Dispose(qty=12, price=5, t=3) produces
exactly the two ClosedPositions (qty=10, cost=1, from t=1) and
(qty=2, cost=2, from t=2), and leaves one open lot of qty=8 at
cost=2. -/
theorem fifo_order_example :
    (calculateClosedPositions
      [⟨"A", .buy, 10, 1, 10, 1⟩, ⟨"A", .buy, 10, 2, 20, 2⟩,
       ⟨"A", .sell, 12, 5, 60, 3⟩] []).map
      (fun c => (c.quantity, c.buyPrice, c.buyDate)) =
      [(10, 1, 1), (2, 2, 2)]
    ∧ finalStockQueues
      [⟨"A", .buy, 10, 1, 10, 1⟩, ⟨"A", .buy, 10, 2, 20, 2⟩,
       ⟨"A", .sell, 12, 5, 60, 3⟩] [] "A" = [⟨8, 2, 2, 20⟩] := by
  constructor <;>
    norm_num [calculateClosedPositions, finalStockQueues,
      sortedTransactions, step, sellLoop, mkClosedPosition,
      dividendsInWindow, updateQ, initState, jsCeilDays_eq, min_def]

/-- C4: for every event sequence and every instrument, at every point
during processing (any prefix of the sorted event sequence) and at the
end, the open quantity in the instrument's queue plus the quantity in
its emitted closed positions equals the total acquired quantity
processed so far. -/
theorem fifo_quantity_conservation (ts : List Transaction)
    (dv : List Dividend) (s : String) (n : ℕ) :
    queueQty ((runPrefix ts dv n).1 s) + closedQty s (runPrefix ts dv n).2
        = acquiredQty s ((sortedTransactions ts).take n)
    ∧ queueQty (finalStockQueues ts dv s) +
        closedQty s (calculateClosedPositions ts dv) = acquiredQty s ts := by
  constructor
  · have h := run_conservation dv s ((sortedTransactions ts).take n)
      initState
    simpa [runPrefix, initState, queueQty, closedQty] using h
  · have h1 := run_conservation dv s (sortedTransactions ts) initState
    have h2 := closedQty_perm s
      (List.perm_insertionSort (fun a b : ClosedPosition =>
        b.sellDate ≤ a.sellDate)
        ((sortedTransactions ts).foldl (step dv) initState).2)
    have h3 := acquiredQty_perm s
      (List.perm_insertionSort (fun a b : Transaction =>
        a.transaction_date ≤ b.transaction_date) ts)
    have hinit1 : queueQty (initState.1 s) = 0 := by
      simp [initState, queueQty]
    have hinit2 : closedQty s initState.2 = 0 := by
      simp [initState, closedQty]
    rw [hinit1, hinit2, zero_add, zero_add] at h1
    rw [finalStockQueues, calculateClosedPositions, h2, h1,
      sortedTransactions]
    exact h3

/-- C1 counterexample: on Acquire(qty=5) then Dispose(qty=6) the engine
does not fail and does not leave the queue in its pre-event state — a
ClosedPosition of quantity 5 is emitted for the over-disposal and the
queue, `[lot of 5]` before the event, ends empty. -/
theorem overdisposal_not_rejected_cex :
    (calculateClosedPositions
      [⟨"A", .buy, 5, 1, 5, 1⟩, ⟨"A", .sell, 6, 2, 12, 2⟩] []).map
      (fun c => c.quantity) = [5]
    ∧ finalStockQueues [⟨"A", .buy, 5, 1, 5, 1⟩] [] "A" = [⟨5, 1, 1, 5⟩]
    ∧ finalStockQueues
      [⟨"A", .buy, 5, 1, 5, 1⟩, ⟨"A", .sell, 6, 2, 12, 2⟩] [] "A" = [] := by
  refine ⟨?_, ?_, ?_⟩ <;>
    norm_num [calculateClosedPositions, finalStockQueues,
      sortedTransactions, step, sellLoop, mkClosedPosition,
      dividendsInWindow, updateQ, initState, jsCeilDays_eq, min_def]

/-- C1 (amended): a disposal that requests more than the available open
quantity is not rejected — the loop clamps it.  For a queue of positive
lots and a non-negative request, the emitted closed quantity is
`min request available` and the queue is drained by exactly that amount;
the unmatched excess is silently dropped and no error value exists in
the engine's output type. -/
theorem sellLoop_clamps_to_available (dv : List Dividend) (st : String)
    (sd : ℤ) (sp : ℚ) (q : List Buy) (r : ℚ)
    (hq : ∀ b ∈ q, 0 < b.quantity) (hr : 0 ≤ r) :
    cpQtySum (sellLoop dv st sd sp r q).2 = min r (queueQty q)
    ∧ queueQty (sellLoop dv st sd sp r q).1 =
        queueQty q - min r (queueQty q) := by
  have hmain : ∀ (q : List Buy) (r : ℚ), (∀ b ∈ q, 0 < b.quantity) →
      0 ≤ r → cpQtySum (sellLoop dv st sd sp r q).2 = min r (queueQty q) := by
    intro q
    induction q with
    | nil =>
        intro r hq hr
        rw [sellLoop]
        simp [cpQtySum, queueQty, min_eq_right hr]
    | cons oldest rest ih =>
        intro r hq hr
        have hpos : 0 < oldest.quantity :=
          hq oldest (List.mem_cons_self oldest rest)
        have hrest : ∀ b ∈ rest, 0 < b.quantity := fun b hb =>
          hq b (List.mem_cons_of_mem oldest hb)
        have hrestq : 0 ≤ queueQty rest := queueQty_nonneg rest hrest
        have hqq : queueQty (oldest :: rest) =
            oldest.quantity + queueQty rest := by
          simp [queueQty]
        rcases eq_or_lt_of_le hr with hr0 | hrpos
        · rw [sellLoop_nonpos dv st sd sp _ r
            (by rw [← hr0]; exact lt_irrefl 0)]
          have hmin0 : min r (queueQty (oldest :: rest)) = r := by
            refine min_eq_left ?_
            rw [hqq, ← hr0]
            linarith
          rw [hmin0]
          simp [cpQtySum]
          exact hr0
        · by_cases hdrain : oldest.quantity - min r oldest.quantity = 0
          · have hmin : min r oldest.quantity = oldest.quantity :=
              (sub_eq_zero.mp hdrain).symm
            have hle : oldest.quantity ≤ r := min_eq_right_iff.mp hmin
            simp only [sellLoop, if_pos hrpos, if_pos hdrain]
            simp only [hmin]
            have hrec := ih (r - oldest.quantity) hrest (by linarith)
            simp only [cpQtySum, List.map_cons, List.sum_cons,
              mkClosedPosition] at hrec ⊢
            rw [hrec, hqq]
            rw [min_def, min_def]
            split_ifs <;> linarith
          · have hmin : min r oldest.quantity = r := by
              rcases min_choice r oldest.quantity with h | h
              · exact h
              · exact absurd (by rw [h]; ring) hdrain
            simp only [sellLoop, if_pos hrpos, if_neg hdrain]
            simp only [hmin, cpQtySum, List.map_cons, List.map_nil,
              List.sum_cons, List.sum_nil, mkClosedPosition]
            have hle : r ≤ oldest.quantity := min_eq_left_iff.mp hmin
            have hminq : min r (queueQty (oldest :: rest)) = r := by
              refine min_eq_left ?_
              rw [hqq]
              linarith
            rw [hminq]
            ring
  have h1 := hmain q r hq hr
  refine ⟨h1, ?_⟩
  have hcons := sellLoop_conservation dv st sd sp q r
  linarith

/-- Witness for the clamping theorem at a queue holding one lot of 5 and
a disposal request of 6: 5 units close, 0 remain. -/
theorem sellLoop_clamps_to_available_witness :
    cpQtySum (sellLoop [] "A" 2 2 6 [⟨5, 1, 1, 5⟩]).2 =
      min 6 (queueQty [⟨5, 1, 1, 5⟩])
    ∧ queueQty (sellLoop [] "A" 2 2 6 [⟨5, 1, 1, 5⟩]).1 =
        queueQty [⟨5, 1, 1, 5⟩] - min 6 (queueQty [⟨5, 1, 1, 5⟩]) :=
  sellLoop_clamps_to_available [] "A" 2 2 [⟨5, 1, 1, 5⟩] 6
    (by intro b hb; rw [List.mem_singleton] at hb; rw [hb]; norm_num)
    (by norm_num)

/-- C9 counterexample: a buy with a non-positive `price_per_share` is not
rejected before matching — it is pushed as a lot and a later sell matches
it, emitting a ClosedPosition that carries the invalid price. -/
theorem invalid_input_not_rejected_cex :
    (calculateClosedPositions
      [⟨"A", .buy, 5, -1, -5, 1⟩, ⟨"A", .sell, 5, 2, 10, 2⟩] []).map
      (fun c => (c.quantity, c.buyPrice)) = [(5, -1)] := by
  norm_num [calculateClosedPositions, sortedTransactions, step, sellLoop,
    mkClosedPosition, dividendsInWindow, updateQ, initState,
    jsCeilDays_eq, min_def]

/-- C9 (amended): the matching engine performs no input validation and
has no error channel.  A buy is enqueued with whatever quantity and
price the record carries (non-positive included), and a sell with a
non-positive quantity is processed as a no-op by the same FIFO loop;
positivity of quantity and price is enforced only outside the engine
(database `CHECK` constraints and form `min` attributes at record
entry). -/
theorem engine_no_input_validation (dv : List Dividend)
    (acc : (String → List Buy) × List ClosedPosition) (t : Transaction) :
    (t.transaction_type = .buy →
      (step dv acc t).1 t.stock_code = acc.1 t.stock_code ++
        [⟨t.quantity, t.price_per_share, t.transaction_date,
          t.total_value⟩]
      ∧ (step dv acc t).2 = acc.2)
    ∧ (t.transaction_type = .sell → t.quantity ≤ 0 →
      (step dv acc t).1 t.stock_code = acc.1 t.stock_code
      ∧ (step dv acc t).2 = acc.2) := by
  constructor
  · intro htype
    simp [step, htype, updateQ]
  · intro htype hqty
    rw [step]
    simp only [htype]
    rw [sellLoop_nonpos dv t.stock_code t.transaction_date
      t.price_per_share (acc.1 t.stock_code) t.quantity
      (not_lt.mpr hqty)]
    simp [updateQ]

/-- Witness for the no-validation theorem: a zero-quantity buy at a
negative price is enqueued, and a negative-quantity sell is a no-op. -/
theorem engine_no_input_validation_witness :
    ((step [] initState ⟨"A", .buy, 0, -1, 0, 1⟩).1 "A" =
        [⟨0, -1, 1, 0⟩]
      ∧ (step [] initState ⟨"A", .buy, 0, -1, 0, 1⟩).2 = [])
    ∧ ((step [] initState ⟨"A", .sell, -3, 1, -3, 1⟩).1 "A" = []
      ∧ (step [] initState ⟨"A", .sell, -3, 1, -3, 1⟩).2 = []) := by
  constructor
  · have h := (engine_no_input_validation [] initState
      ⟨"A", .buy, 0, -1, 0, 1⟩).1 rfl
    simpa [initState] using h
  · have h := (engine_no_input_validation [] initState
      ⟨"A", .sell, -3, 1, -3, 1⟩).2 rfl (by norm_num)
    simpa [initState] using h

/-- C10: with two concurrently held lots, one dividend dated between the
second acquisition and the disposal, and one disposal draining both
lots, the same dividend amount of 100 is attributed to both emitted
ClosedPositions, so the attributed total of 200 exceeds the 100 recorded
for the instrument. -/
theorem distribution_double_counting :
    (calculateClosedPositions
      [⟨"A", .buy, 10, 1, 10, 1⟩, ⟨"A", .buy, 10, 1, 10, 2⟩,
       ⟨"A", .sell, 20, 2, 40, 4⟩] [⟨"A", 100, 3⟩]).map (·.dividends) =
      [100, 100]
    ∧ ((calculateClosedPositions
      [⟨"A", .buy, 10, 1, 10, 1⟩, ⟨"A", .buy, 10, 1, 10, 2⟩,
       ⟨"A", .sell, 20, 2, 40, 4⟩] [⟨"A", 100, 3⟩]).map
        (·.dividends)).sum = 200
    ∧ (([⟨"A", 100, 3⟩] : List Dividend).map (·.amount)).sum = 100
    ∧ (100 : ℚ) < 200 := by
  refine ⟨?_, ?_, by norm_num, by norm_num⟩ <;>
    norm_num [calculateClosedPositions, sortedTransactions, step,
      sellLoop, mkClosedPosition, dividendsInWindow, updateQ, initState,
      jsCeilDays_eq, min_def]

/-- A concrete run used by witnesses: one lot bought at price 1 on day
0, sold at price 2 thirty days later, with one dividend of 100 inside
the holding window. -/
def wTx : List Transaction :=
  [⟨"A", .buy, 1, 1, 1, 0⟩, ⟨"A", .sell, 1, 2, 2, 2592000000⟩]

/-- The dividend list of the witness run. -/
def wDv : List Dividend := [⟨"A", 100, 5⟩]

/-- The single closed position the witness run produces. -/
def wCp : ClosedPosition :=
  ⟨"A", 0, 2592000000, 1, 1, 2, 1, 2, 100, 30, 101, 10100, 10100⟩

/-- C6: for every position, the monthly return equals the return percent
divided by the month count `days / 30` when that count is positive and 0
otherwise — for closed positions through their stored `days`, and for
open positions through `calculateMonthlyReturn` on the elapsed days; in
particular a 30% return over 60 days normalises to 15% per month. -/
theorem monthly_return_normalization :
    (∀ (ts : List Transaction) (dv : List Dividend) (cp : ClosedPosition),
      cp ∈ calculateClosedPositions ts dv →
      cp.monthlyReturn =
        (if 0 < (cp.days : ℚ) / 30 then
          cp.returnPercent / ((cp.days : ℚ) / 30) else 0))
    ∧ (∀ (now first : ℤ) (cr : ℚ),
      calculateMonthlyReturn now (some first) cr =
        (if 0 < ((jsCeilDays |now - first| : ℤ) : ℚ) / 30 then
          cr / (((jsCeilDays |now - first| : ℤ) : ℚ) / 30) else 0))
    ∧ calculateMonthlyReturn (60 * 86400000) (some 0) 30 = 15 := by
  refine ⟨?_, ?_, ?_⟩
  · intro ts dv cp h
    exact (mem_calculateClosedPositions_fields ts dv cp h).2.2.2.2.2.2
  · intro now first cr
    have hd : 0 ≤ jsCeilDays |now - first| := by
      rw [jsCeilDays]
      refine Int.ceil_nonneg (div_nonneg ?_ ?_)
      · exact_mod_cast abs_nonneg (now - first)
      · norm_num [msPerDay]
    have hdm : 0 ≤ ((jsCeilDays |now - first| : ℤ) : ℚ) / 30 :=
      div_nonneg (by exact_mod_cast hd) (by norm_num)
    simp only [calculateMonthlyReturn]
    by_cases h0 : ((jsCeilDays |now - first| : ℤ) : ℚ) / 30 = 0
    · rw [if_pos h0, if_neg (by rw [h0]; exact lt_irrefl 0)]
    · rw [if_neg h0, if_pos (lt_of_le_of_ne hdm (Ne.symm h0))]
  · norm_num [calculateMonthlyReturn, jsCeilDays_eq]

/-- Witness for the monthly-return theorem on the concrete witness
run. -/
theorem monthly_return_normalization_witness :
    wCp ∈ calculateClosedPositions wTx wDv
    ∧ wCp.monthlyReturn =
        (if 0 < (wCp.days : ℚ) / 30 then
          wCp.returnPercent / ((wCp.days : ℚ) / 30) else 0) := by
  have hmem : wCp ∈ calculateClosedPositions wTx wDv := by
    norm_num [calculateClosedPositions, sortedTransactions, step,
      sellLoop, mkClosedPosition, dividendsInWindow, updateQ, initState,
      jsCeilDays_eq, min_def, wTx, wDv, wCp]
  exact ⟨hmem, monthly_return_normalization.1 wTx wDv wCp hmem⟩

/-- C7: a dividend is counted in a closed position's attributed
distributions exactly when it is for the same instrument and dated in
the inclusive window `[acquired_at, disposed_at]`; a dividend at t=5 is
attributed to a window `[1, 10]` and not to a window ending at 4. -/
theorem distribution_windowing :
    (∀ (ts : List Transaction) (dv : List Dividend) (cp : ClosedPosition),
      cp ∈ calculateClosedPositions ts dv →
      cp.dividends = ((dv.filter (fun d =>
        decide (d.stock_code = cp.stock_code ∧
          cp.buyDate ≤ d.dividend_date ∧
          d.dividend_date ≤ cp.sellDate))).map (·.amount)).sum)
    ∧ dividendsInWindow [⟨"A", 100, 5⟩] "A" 1 10 = 100
    ∧ dividendsInWindow [⟨"A", 100, 5⟩] "A" 1 4 = 0 := by
  refine ⟨?_, by norm_num [dividendsInWindow],
    by norm_num [dividendsInWindow]⟩
  intro ts dv cp h
  exact (mem_calculateClosedPositions_fields ts dv cp h).1

/-- Witness for the windowing theorem on the concrete witness run. -/
theorem distribution_windowing_witness :
    wCp ∈ calculateClosedPositions wTx wDv
    ∧ wCp.dividends = ((wDv.filter (fun d =>
        decide (d.stock_code = wCp.stock_code ∧
          wCp.buyDate ≤ d.dividend_date ∧
          d.dividend_date ≤ wCp.sellDate))).map (·.amount)).sum := by
  have hmem : wCp ∈ calculateClosedPositions wTx wDv := by
    norm_num [calculateClosedPositions, sortedTransactions, step,
      sellLoop, mkClosedPosition, dividendsInWindow, updateQ, initState,
      jsCeilDays_eq, min_def, wTx, wDv, wCp]
  exact ⟨hmem, distribution_windowing.1 wTx wDv wCp hmem⟩

/-- C2 counterexample: after Buy 10@1, Buy 10@2, Sell 10, the reported
`avgPrice` is 3/2 (the running mean over buys) while the recomputation
from the lots left open by FIFO matching (one lot of 10 at cost 2) gives
2. -/
theorem avgPrice_not_fifo_recomputation_cex :
    (lookupEntry (buildPortfolio
      [⟨"A", .buy, 10, 1, 10, 1⟩, ⟨"A", .buy, 10, 2, 20, 2⟩,
       ⟨"A", .sell, 10, 3, 30, 3⟩] []) "A").map (·.avgPrice) =
      some (3 / 2)
    ∧ specWeightedAverageCost (finalStockQueues
      [⟨"A", .buy, 10, 1, 10, 1⟩, ⟨"A", .buy, 10, 2, 20, 2⟩,
       ⟨"A", .sell, 10, 3, 30, 3⟩] [] "A") = 2
    ∧ (3 / 2 : ℚ) ≠ 2 := by
  refine ⟨?_, ?_, by norm_num⟩ <;>
    norm_num [buildPortfolio, addDividends, portfolioStep, lookupEntry,
      setEntry, emptyEntry, finalStockQueues, sortedTransactions, step,
      sellLoop, mkClosedPosition, dividendsInWindow, updateQ, initState,
      jsCeilDays_eq, min_def, specWeightedAverageCost, queueQty,
      List.find?]

/-- C2 (amended): the reported `avgPrice` is a running mean over buys
that ignores disposals — a sell decrements only `quantity` and leaves
`avgPrice` (and every other field) unchanged, and a buy folds the
transaction value into the running mean
`(quantity × avgPrice + total_value) / (quantity + bought)`; it is not
the recomputation from the lots left open by FIFO matching, from which
it can differ. -/
theorem avgPrice_is_running_mean_of_buys (pf : Portfolio)
    (t : Transaction) :
    (t.transaction_type = .sell →
      lookupEntry (portfolioStep pf t) t.stock_code =
        some { (lookupEntry pf t.stock_code).getD emptyEntry with
          quantity :=
            ((lookupEntry pf t.stock_code).getD emptyEntry).quantity -
              t.quantity })
    ∧ (t.transaction_type = .buy →
      (lookupEntry (portfolioStep pf t) t.stock_code).map (·.avgPrice) =
        some ((((lookupEntry pf t.stock_code).getD emptyEntry).quantity *
            ((lookupEntry pf t.stock_code).getD emptyEntry).avgPrice +
            t.total_value) /
          (((lookupEntry pf t.stock_code).getD emptyEntry).quantity +
            t.quantity))) := by
  constructor
  · intro htype
    simp only [portfolioStep, htype]
    rw [lookupEntry_setEntry_self]
  · intro htype
    simp only [portfolioStep, htype]
    rw [lookupEntry_setEntry_self]
    rfl

/-- Witness for the running-mean theorem: a concrete sell leaves the
average untouched, a concrete first buy sets it to the running mean. -/
theorem avgPrice_is_running_mean_of_buys_witness :
    (lookupEntry (portfolioStep [("A", ⟨20, 3 / 2, 30, some 1, 0⟩)]
        ⟨"A", .sell, 10, 3, 30, 3⟩) "A" =
      some { (lookupEntry [("A", ⟨20, 3 / 2, 30, some 1, 0⟩)]
          "A").getD emptyEntry with
        quantity := ((lookupEntry [("A", ⟨20, 3 / 2, 30, some 1, 0⟩)]
          "A").getD emptyEntry).quantity - 10 })
    ∧ ((lookupEntry (portfolioStep [] ⟨"A", .buy, 10, 1, 10, 1⟩)
        "A").map (·.avgPrice) =
      some ((((lookupEntry ([] : Portfolio) "A").getD emptyEntry).quantity *
          ((lookupEntry ([] : Portfolio) "A").getD emptyEntry).avgPrice +
          10) /
        (((lookupEntry ([] : Portfolio) "A").getD emptyEntry).quantity +
          10))) :=
  ⟨(avgPrice_is_running_mean_of_buys [("A", ⟨20, 3 / 2, 30, some 1, 0⟩)]
      ⟨"A", .sell, 10, 3, 30, 3⟩).1 rfl,
   (avgPrice_is_running_mean_of_buys [] ⟨"A", .buy, 10, 1, 10, 1⟩).2 rfl⟩

/-- C5 counterexample: `calculateReturn` with a zero acquisition value
(quantity 0) but a non-zero current price divides by zero — the result
is the non-finite marker, not 0. -/
theorem calculateReturn_zero_acquisition_cex :
    calculateReturn 5 1 0 0 = none
    ∧ calculateReturn 5 1 0 0 ≠ some 0 := by
  have h : calculateReturn 5 1 0 0 = none := by norm_num [calculateReturn]
  exact ⟨h, by rw [h]; simp⟩

/-- C5 (amended): the divide-by-zero guard of `calculateReturn` is on
the current price, not on the acquisition value: a zero current price
yields 0; with a non-zero current price the formula
`(current + dividends − invested) / invested × 100` is returned when the
acquisition value `avgPrice × quantity` is non-zero, and the division by
the zero acquisition value produces a non-finite value otherwise. -/
theorem calculateReturn_guard_characterization (a c d q : ℚ) :
    (c = 0 → calculateReturn a c d q = some 0)
    ∧ (c ≠ 0 → a * q ≠ 0 →
        calculateReturn a c d q =
          some ((c * q + d - a * q) / (a * q) * 100))
    ∧ (c ≠ 0 → a * q = 0 → calculateReturn a c d q = none) := by
  refine ⟨fun h => by simp [calculateReturn, h],
    fun h1 h2 => by simp [calculateReturn, h1, h2],
    fun h1 h2 => by simp [calculateReturn, h1, h2]⟩

/-- Witness for the guard characterization at concrete inputs covering
all three branches. -/
theorem calculateReturn_guard_characterization_witness :
    calculateReturn 2 0 7 3 = some 0
    ∧ calculateReturn 2 4 7 3 =
        some ((4 * 3 + 7 - 2 * 3) / (2 * 3) * 100)
    ∧ calculateReturn 0 4 7 3 = none :=
  ⟨(calculateReturn_guard_characterization 2 0 7 3).1 rfl,
   (calculateReturn_guard_characterization 2 4 7 3).2.1 (by norm_num)
     (by norm_num),
   (calculateReturn_guard_characterization 0 4 7 3).2.2 (by norm_num)
     (by norm_num)⟩

/-- C8 counterexample: an active stock whose price is unresolved is
skipped by `totalCurrentValue` but still contributes its
`totalInvested` of 100 to `totalPortfolioInvested` — it is not excluded
from both running totals. -/
theorem pending_price_in_invested_total_cex :
    ((fun _ => none : String → Option StockData) "A" = none)
    ∧ totalCurrentValue [("A", ⟨10, 10, 100, some 0, 5⟩)]
        (fun _ => none) = 0
    ∧ totalPortfolioInvested [("A", ⟨10, 10, 100, some 0, 5⟩)] = 100
    ∧ (100 : ℚ) ≠ 0 := by
  refine ⟨rfl, ?_, ?_, by norm_num⟩ <;>
    norm_num [totalCurrentValue, totalPortfolioInvested]

/-- C8 (amended): `totalCurrentValue` skips an active stock whose price
is missing or still loading, while `totalPortfolioInvested` adds every
active stock's `totalInvested` unconditionally — only the current-value
total excludes pending instruments. -/
theorem aggregator_pending_exclusion (active : Portfolio)
    (prices : String → Option StockData) (c : String)
    (e : PortfolioEntry) :
    totalPortfolioInvested ((c, e) :: active) =
      e.totalInvested + totalPortfolioInvested active
    ∧ (prices c = none →
        totalCurrentValue ((c, e) :: active) prices =
          totalCurrentValue active prices)
    ∧ (∀ sd, prices c = some sd → sd.loading = true →
        totalCurrentValue ((c, e) :: active) prices =
          totalCurrentValue active prices)
    ∧ (∀ sd, prices c = some sd → sd.loading = false →
        totalCurrentValue ((c, e) :: active) prices =
          calculateCurrentValue e.quantity sd.currentPrice +
            e.totalDividends + totalCurrentValue active prices) := by
  refine ⟨?_, ?_, ?_, ?_⟩
  · rw [totalPortfolioInvested_eq_sum, totalPortfolioInvested_eq_sum]
    simp
  · intro hp
    rw [totalCurrentValue_eq_sum, totalCurrentValue_eq_sum]
    simp [priceContribution, hp]
  · intro sd hp hl
    rw [totalCurrentValue_eq_sum, totalCurrentValue_eq_sum]
    simp [priceContribution, hp, hl]
  · intro sd hp hl
    rw [totalCurrentValue_eq_sum, totalCurrentValue_eq_sum]
    simp [priceContribution, hp, hl]

/-- Witness for the aggregator theorem at one active stock under a
missing price, a loading price, and a resolved price of 7. -/
theorem aggregator_pending_exclusion_witness :
    totalPortfolioInvested [("A", ⟨10, 10, 100, some 0, 5⟩)] =
      (100 : ℚ) + totalPortfolioInvested []
    ∧ totalCurrentValue [("A", ⟨10, 10, 100, some 0, 5⟩)]
        (fun _ => none) = totalCurrentValue [] (fun _ => none)
    ∧ totalCurrentValue [("A", ⟨10, 10, 100, some 0, 5⟩)]
        (fun _ => some ⟨0, true⟩) =
        totalCurrentValue [] (fun _ => some ⟨0, true⟩)
    ∧ totalCurrentValue [("A", ⟨10, 10, 100, some 0, 5⟩)]
        (fun _ => some ⟨7, false⟩) =
        calculateCurrentValue 10 7 + 5 +
          totalCurrentValue [] (fun _ => some ⟨7, false⟩) :=
  ⟨(aggregator_pending_exclusion [] (fun _ => none) "A"
      ⟨10, 10, 100, some 0, 5⟩).1,
   (aggregator_pending_exclusion [] (fun _ => none) "A"
      ⟨10, 10, 100, some 0, 5⟩).2.1 rfl,
   (aggregator_pending_exclusion [] (fun _ => some ⟨0, true⟩) "A"
      ⟨10, 10, 100, some 0, 5⟩).2.2.1 ⟨0, true⟩ rfl rfl,
   (aggregator_pending_exclusion [] (fun _ => some ⟨7, false⟩) "A"
      ⟨10, 10, 100, some 0, 5⟩).2.2.2 ⟨7, false⟩ rfl rfl⟩
